import Mathlib

/-!
Shallow embedding of the pipeline logic of the example scripts
(mood.mjs, advanced_mood.js, function_call_example.js): audio framing,
tool-call normalization and dispatch, conversation reset, audio playback
and the connect retry policy, together with theorems about them.
Byte streams are modelled as lists of naturals; JS strings as Lean strings
over their character lists (ASCII case mapping models toLowerCase).
-/

namespace RealtimeExamples

/-- Frame size in bytes used by every data handler: 4800 bytes, about 0.2
seconds of mono 16-bit audio at 24000 Hz. -/
def chunkSize : Nat := 4800

/-- The framing loop of the mic data handlers (mood.mjs lines 104 to 113,
advanced_mood.js lines 184 to 193): while at least chunkSize bytes are
buffered, slice a frame of chunkSize bytes off the head of the buffer.
Returns the emitted frames in order and the leftover buffer. -/
def emitFrames (buffer : List Nat) : List (List Nat) × List Nat :=
  if _h : chunkSize ≤ buffer.length then
    (buffer.take chunkSize :: (emitFrames (buffer.drop chunkSize)).1,
      (emitFrames (buffer.drop chunkSize)).2)
  else
    ([], buffer)
termination_by buffer.length
decreasing_by
  all_goals
    rw [List.length_drop]
    have hpos : 0 < chunkSize := by decide
    omega

theorem emitFrames_pos {buffer : List Nat} (h : chunkSize ≤ buffer.length) :
    emitFrames buffer =
      (buffer.take chunkSize :: (emitFrames (buffer.drop chunkSize)).1,
        (emitFrames (buffer.drop chunkSize)).2) := by
  rw [emitFrames]
  simp [h]

theorem emitFrames_neg {buffer : List Nat} (h : ¬ chunkSize ≤ buffer.length) :
    emitFrames buffer = ([], buffer) := by
  rw [emitFrames]
  simp [h]

theorem emitFrames_spec_aux (n : Nat) :
    ∀ buffer : List Nat, buffer.length ≤ n →
      (emitFrames buffer).1.flatten ++ (emitFrames buffer).2 = buffer ∧
      (∀ f ∈ (emitFrames buffer).1, f.length = chunkSize) ∧
      (emitFrames buffer).1.length = buffer.length / chunkSize ∧
      (emitFrames buffer).2.length = buffer.length % chunkSize := by
  induction n with
  | zero =>
    intro buffer hb
    have hlen : buffer.length = 0 := Nat.le_zero.mp hb
    have h : ¬ chunkSize ≤ buffer.length := by
      rw [hlen]; decide
    rw [emitFrames_neg h]
    simp [hlen]
  | succ n ih =>
    intro buffer hb
    by_cases h : chunkSize ≤ buffer.length
    · have hdroplen : (buffer.drop chunkSize).length = buffer.length - chunkSize := by
        simp [List.length_drop]
      have hpos : 0 < chunkSize := by decide
      have hrec := ih (buffer.drop chunkSize) (by omega)
      rw [emitFrames_pos h]
      obtain ⟨hjoin, hlens, hcount, hrem⟩ := hrec
      refine ⟨?_, ?_, ?_, ?_⟩
      · simp only [List.flatten_cons, List.append_assoc, hjoin]
        exact List.take_append_drop chunkSize buffer
      · intro f hf
        rcases List.mem_cons.mp hf with hf | hf
        · subst hf
          simp [List.length_take, Nat.min_eq_left h]
        · exact hlens f hf
      · simp only [List.length_cons, hcount, hdroplen]
        simp only [chunkSize] at h ⊢
        omega
      · simp only [hrem, hdroplen]
        simp only [chunkSize] at h ⊢
        omega
    · rw [emitFrames_neg h]
      have hlt : buffer.length < chunkSize := Nat.lt_of_not_le h
      refine ⟨by simp, by simp, ?_, ?_⟩
      · simp [Nat.div_eq_of_lt hlt]
      · simp [Nat.mod_eq_of_lt hlt]

theorem emitFrames_spec (buffer : List Nat) :
    (emitFrames buffer).1.flatten ++ (emitFrames buffer).2 = buffer ∧
    (∀ f ∈ (emitFrames buffer).1, f.length = chunkSize) ∧
    (emitFrames buffer).1.length = buffer.length / chunkSize ∧
    (emitFrames buffer).2.length = buffer.length % chunkSize :=
  emitFrames_spec_aux buffer.length buffer (Nat.le_refl _)

/-- A whole sequence of mic data events run against the framer: each event
appends its bytes to the buffer and then runs the framing loop. Returns all
frames emitted across the events and the final buffer. The scripts start
from an empty buffer (Buffer.alloc(0)). -/
def framerRun (chunks : List (List Nat)) (buffer : List Nat) :
    List (List Nat) × List Nat :=
  match chunks with
  | [] => ([], buffer)
  | d :: ds =>
    ((emitFrames (buffer ++ d)).1 ++ (framerRun ds (emitFrames (buffer ++ d)).2).1,
      (framerRun ds (emitFrames (buffer ++ d)).2).2)

theorem framerRun_spec (chunks : List (List Nat)) :
    ∀ buffer : List Nat,
      (framerRun chunks buffer).1.flatten ++ (framerRun chunks buffer).2 =
        buffer ++ chunks.flatten ∧
      (∀ f ∈ (framerRun chunks buffer).1, f.length = chunkSize) ∧
      ((framerRun chunks buffer).2.length < chunkSize →
        (framerRun chunks buffer).1.length =
          (buffer.length + chunks.flatten.length) / chunkSize ∧
        (framerRun chunks buffer).2.length =
          (buffer.length + chunks.flatten.length) % chunkSize) := by
  induction chunks with
  | nil =>
    intro buffer
    refine ⟨by simp [framerRun], by simp [framerRun], ?_⟩
    intro hlt
    simp only [framerRun, List.flatten_nil, List.length_nil]
    constructor
    · simp [Nat.div_eq_of_lt (by simpa [framerRun] using hlt)]
    · simp [Nat.mod_eq_of_lt (by simpa [framerRun] using hlt)]
  | cons d ds ih =>
    intro buffer
    obtain ⟨hj1, hl1, hc1, hr1⟩ := emitFrames_spec (buffer ++ d)
    obtain ⟨hj2, hl2, hcr2⟩ := ih (emitFrames (buffer ++ d)).2
    refine ⟨?_, ?_, ?_⟩
    · simp only [framerRun, List.flatten_append, List.append_assoc, hj2]
      rw [← List.append_assoc, hj1]
      simp
    · intro f hf
      simp only [framerRun, List.mem_append] at hf
      rcases hf with hf | hf
      · exact hl1 f hf
      · exact hl2 f hf
    · intro hlt
      have hlt2 : (framerRun ds (emitFrames (buffer ++ d)).2).2.length < chunkSize := by
        simpa [framerRun] using hlt
      obtain ⟨hc2, hr2⟩ := hcr2 hlt2
      rw [hr1, List.length_append] at hc2 hr2
      rw [List.length_append] at hc1 hr1
      constructor
      · simp only [framerRun, List.length_append, hc1, hc2,
          List.flatten_cons]
        simp only [chunkSize] at *
        omega
      · simp only [framerRun, hr2, List.flatten_cons, List.length_append]
        simp only [chunkSize] at *
        omega

theorem framerRun_rem_lt (chunks : List (List Nat)) :
    ∀ buffer : List Nat, buffer.length < chunkSize →
      (framerRun chunks buffer).2.length < chunkSize := by
  induction chunks with
  | nil =>
    intro buffer hb
    simpa [framerRun] using hb
  | cons d ds ih =>
    intro buffer hb
    have hrem := (emitFrames_spec (buffer ++ d)).2.2.2
    have hlt : (emitFrames (buffer ++ d)).2.length < chunkSize := by
      rw [hrem]
      exact Nat.mod_lt _ (by decide)
    simpa [framerRun] using ih _ hlt

/-- C1: for any sequence of byte chunks pushed into the framer (started from
the empty buffer, as in the scripts), the concatenation of the emitted frames
followed by the retained buffer is exactly the pushed bytes in order, so no
byte is emitted twice, dropped, or reordered and the partial remainder is
retained, never emitted and never discarded; every frame has exactly
chunkSize bytes; the number of frames is total / chunkSize; the retained
remainder has length total % chunkSize, and in particular when the total is
a multiple of chunkSize the retained buffer is empty and exactly
total / chunkSize frames were emitted. -/
theorem audioFramer_frame_alignment (chunks : List (List Nat)) :
    (framerRun chunks []).1.flatten ++ (framerRun chunks []).2 = chunks.flatten ∧
    (∀ f ∈ (framerRun chunks []).1, f.length = chunkSize) ∧
    (framerRun chunks []).1.length = chunks.flatten.length / chunkSize ∧
    (framerRun chunks []).2.length = chunks.flatten.length % chunkSize ∧
    (chunks.flatten.length % chunkSize = 0 → (framerRun chunks []).2 = []) := by
  obtain ⟨hj, hl, hcr⟩ := framerRun_spec chunks []
  have hlt : (framerRun chunks []).2.length < chunkSize :=
    framerRun_rem_lt chunks [] (by decide)
  obtain ⟨hc, hr⟩ := hcr hlt
  simp only [List.length_nil, Nat.zero_add] at hc hr
  refine ⟨by simpa using hj, hl, hc, hr, ?_⟩
  intro h0
  rw [← List.length_eq_zero, hr, h0]

theorem audioFramer_frame_alignment_witness :
    ([[]] : List (List Nat)).flatten.length % chunkSize = 0 ∧
    (framerRun [[]] []).2 = [] :=
  ⟨by decide, (audioFramer_frame_alignment [[]]).2.2.2.2 (by decide)⟩

/-- Lower-casing of a JS string via toLowerCase, modelled character by
character with the ASCII case map (the strings the handlers compare against
are all ASCII). -/
def strToLower (s : String) : String :=
  ⟨s.data.map Char.toLower⟩

/-- Trimming of leading and trailing whitespace, as the word trimmed in the
claim describes (JS String.prototype.trim). -/
def specTrim (s : String) : String :=
  ⟨((s.data.dropWhile Char.isWhitespace).reverse.dropWhile Char.isWhitespace).reverse⟩

/-- The normalization claim C2 describes, written from the words of the
claim: trim whitespace, lower-case, and send empty or absent input to the
string "none". To be compared with the normalization the handlers run. -/
def specNormalizeTrimLower : Option String → String
  | none => "none"
  | some s => if s = "" then "none" else strToLower (specTrim s)

/-- Normalization in the action_handler of advanced_mood.js line 94:
normalized = action ? action.toLowerCase() : "none". A JS string is falsy
exactly when it is empty, so an empty or absent action becomes "none". -/
def normalizeAction : Option String → String
  | none => "none"
  | some s => if s = "" then "none" else strToLower s

/-- Normalization in the mood_handler of mood.mjs line 54 and of
function_call_example.js line 50: normalized = mood ? mood.toLowerCase() : "";
an empty or absent mood becomes the empty string, not "none". -/
def normalizeMood : Option String → String
  | none => ""
  | some s => if s = "" then "" else strToLower s

/-- C2 counterexample: the handlers do not trim whitespace, and the mood
handlers send an empty or absent value to the empty string rather than to
"none". -/
theorem normalize_no_trim_counterexample :
    normalizeAction (some " HAPPY") ≠ specNormalizeTrimLower (some " HAPPY") ∧
    normalizeMood (some "") ≠ "none" ∧
    normalizeMood none ≠ "none" := by
  refine ⟨?_, by decide, by decide⟩
  decide

/-- The normalization the amended claim C2 describes, written from the words
of the amended claim: lower-case without trimming, empty or absent input
becomes "none" (the advanced_mood.js handler). -/
def specNormalizeLowerNoTrim : Option String → String
  | none => "none"
  | some s => if s.data = [] then "none" else strToLower s

/-- The normalization the amended claim C2 describes for the mood handlers:
lower-case without trimming, empty or absent input becomes the empty
string. -/
def specMoodNormalizeLowerNoTrim : Option String → String
  | none => ""
  | some s => if s.data = [] then "" else strToLower s

/-- C2 amended: the handlers lower-case the inbound string without trimming;
advanced_mood.js maps an empty or absent action to "none", while the mood
handlers of mood.mjs and function_call_example.js map an empty or absent mood
to the empty string. -/
theorem normalize_lowercases_without_trim :
    (∀ a, normalizeAction a = specNormalizeLowerNoTrim a) ∧
    (∀ m, normalizeMood m = specMoodNormalizeLowerNoTrim m) := by
  constructor
  · intro a
    cases a with
    | none => rfl
    | some s =>
      simp only [normalizeAction, specNormalizeLowerNoTrim]
      by_cases h : s = ""
      · subst h; simp
      · have hd : s.data ≠ [] := fun hnil => h (by cases s; exact congrArg String.mk hnil)
        simp [h, hd]
  · intro m
    cases m with
    | none => rfl
    | some s =>
      simp only [normalizeMood, specMoodNormalizeLowerNoTrim]
      by_cases h : s = ""
      · subst h; simp
      · have hd : s.data ≠ [] := fun hnil => h (by cases s; exact congrArg String.mk hnil)
        simp [h, hd]

/-- Which local function the switch of advanced_mood.js lines 95 to 128
calls; noOp is the default branch, which only logs. -/
inductive HandlerCall where
  | yesResponse
  | noResponse
  | dontKnowResponse
  | happy
  | sad
  | annoyed
  | fearful
  | proud
  | laugh
  | friendly
  | noOp
deriving DecidableEq

/-- The switch of the action_handler of advanced_mood.js lines 95 to 128 on
the normalized action string. There is no case for the string "none", so it
runs the default branch. -/
def dispatchAction (normalized : String) : HandlerCall :=
  if normalized = "yes" then .yesResponse
  else if normalized = "no" then .noResponse
  else if normalized = "idk" then .dontKnowResponse
  else if normalized = "happy" then .happy
  else if normalized = "sad" then .sad
  else if normalized = "annoyed" then .annoyed
  else if normalized = "fearful" then .fearful
  else if normalized = "proud" then .proud
  else if normalized = "laugh" then .laugh
  else if normalized = "friendly" then .friendly
  else .noOp

/-- The result object a tool handler returns to close the tool call. -/
structure ActionResult where
  status : String
  action : String
deriving DecidableEq

/-- The action_handler of advanced_mood.js lines 92 to 130: normalize the
action, run the switch, and return the result object with the normalized
action echoed back. -/
def action_handler (action : Option String) : HandlerCall × ActionResult :=
  (dispatchAction (normalizeAction action),
    { status := "processed", action := normalizeAction action })

/-- The canonical action identifiers named by the spec. -/
def canonicalActions : List String :=
  ["yes", "no", "idk", "happy", "sad", "annoyed", "fearful", "proud",
    "laugh", "friendly", "none"]

theorem dispatchAction_not_canonical {t : String}
    (h : t ∉ canonicalActions) : dispatchAction t = HandlerCall.noOp := by
  simp only [canonicalActions, List.mem_cons, List.not_mem_nil, or_false,
    not_or] at h
  obtain ⟨h1, h2, h3, h4, h5, h6, h7, h8, h9, h10, h11⟩ := h
  simp [dispatchAction, h1, h2, h3, h4, h5, h6, h7, h8, h9, h10]

/-- C3: for every action string whose lower-casing is outside the canonical
set, the action_handler runs the same branch as for the string "none": the
default no-op branch, with no handler side effect and no error (the handler
is a total function). -/
theorem dispatch_unknown_action_eq_none (s : String)
    (h : strToLower s ∉ canonicalActions) :
    (action_handler (some s)).1 = (action_handler (some "none")).1 ∧
    (action_handler (some "none")).1 = HandlerCall.noOp := by
  refine ⟨?_, by decide⟩
  by_cases hs : s = ""
  · subst hs; decide
  · have hdisp : (action_handler (some s)).1 = dispatchAction (strToLower s) := by
      simp [action_handler, normalizeAction, hs]
    rw [hdisp, dispatchAction_not_canonical h]
    decide

theorem dispatch_unknown_action_eq_none_witness :
    strToLower "XYZ" ∉ canonicalActions ∧
    ((action_handler (some "XYZ")).1 = (action_handler (some "none")).1 ∧
      (action_handler (some "none")).1 = HandlerCall.noOp) :=
  ⟨by decide, dispatch_unknown_action_eq_none "XYZ" (by decide)⟩

/-- Which local function the mood handlers call; noOp is the else branch,
which only logs. -/
inductive MoodCall where
  | happy
  | sad
  | noOp
deriving DecidableEq

/-- The result object the mood handlers return; the mood field echoes the
raw argument, which may be absent. -/
structure MoodResult where
  status : String
  mood : Option String
deriving DecidableEq

/-- The mood_handler of mood.mjs lines 52 to 63: normalize the mood, call
happy or sad or log nothing, and return a result object echoing the raw
mood argument, not the normalized one. -/
def mood_handler (mood : Option String) : MoodCall × MoodResult :=
  (if normalizeMood mood = "happy" then .happy
    else if normalizeMood mood = "sad" then .sad
    else .noOp,
    { status := "processed", mood := mood })

/-- C4 counterexample: the mood_handler of mood.mjs echoes the raw mood
argument in its result, not the normalized lower-cased string. -/
theorem mood_result_raw_echo_counterexample :
    (mood_handler (some "HAPPY")).2.mood = some "HAPPY" ∧
    some "HAPPY" ≠ some (normalizeMood (some "HAPPY")) := by
  constructor
  · rfl
  · decide

/-- C4 amended: every tool call gets exactly one result object with status
"processed", returned whatever the action is, found in the registry or not;
the action_handler of advanced_mood.js echoes the normalized action, while
the mood_handler of mood.mjs echoes the raw mood argument. -/
theorem tool_result_payload (a m : Option String) :
    (action_handler a).2 = { status := "processed", action := normalizeAction a } ∧
    (mood_handler m).2 = { status := "processed", mood := m } :=
  ⟨rfl, rfl⟩

/-- A completed conversation item, reduced to the one field the reset
listener inspects. -/
structure ConvItem where
  type : String
deriving DecidableEq

/-- The items field of the client conversation object: either an array of
items or some non-array value. -/
inductive ItemsField where
  | arr (items : List ConvItem)
  | notArr
deriving DecidableEq

/-- The conversation field of the client: either absent (falsy) or present
with an items field. -/
inductive ConversationField where
  | absent
  | present (items : ItemsField)
deriving DecidableEq

/-- The conversation.item.completed listener of advanced_mood.js lines 213
to 221 and mood.mjs lines 133 to 142: on a function_call item, when
client.conversation exists and its items field is an array, replace that
array with the empty array; in every other case leave the state unchanged
and raise no error. -/
def onItemCompleted (item : ConvItem) (conv : ConversationField) :
    ConversationField :=
  if item.type = "function_call" then
    match conv with
    | .present (.arr _) => .present (.arr [])
    | c => c
  else conv

/-- C5: whenever the reset branch of the listener runs, the conversation
item sequence afterwards has length 0, regardless of how many items it held
beforehand. -/
theorem reset_empties_items (item : ConvItem) (items : List ConvItem)
    (h : item.type = "function_call") :
    ∃ l : List ConvItem,
      onItemCompleted item (.present (.arr items)) = .present (.arr l) ∧
      l.length = 0 :=
  ⟨[], by simp [onItemCompleted, h], rfl⟩

theorem reset_empties_items_witness :
    (ConvItem.mk "function_call").type = "function_call" ∧
    ∃ l : List ConvItem,
      onItemCompleted ⟨"function_call"⟩
          (.present (.arr [⟨"message"⟩, ⟨"message"⟩, ⟨"message"⟩])) =
        .present (.arr l) ∧ l.length = 0 :=
  ⟨rfl, reset_empties_items ⟨"function_call"⟩
    [⟨"message"⟩, ⟨"message"⟩, ⟨"message"⟩] rfl⟩

/-- Whether processing one completed item runs the reset assignment: the
item is a function_call and the conversation items field is an array. -/
def resetRuns (item : ConvItem) (conv : ConversationField) : Bool :=
  (item.type = "function_call") &&
    match conv with
    | .present (.arr _) => true
    | _ => false

/-- A sequence of conversation.item.completed events fed to the listener in
order; returns the final conversation state and how many times the reset
assignment ran. -/
def runCompletedEvents (events : List ConvItem) (conv : ConversationField) :
    ConversationField × Nat :=
  match events with
  | [] => (conv, 0)
  | e :: es =>
    ((runCompletedEvents es (onItemCompleted e conv)).1,
      (if resetRuns e conv then 1 else 0) +
        (runCompletedEvents es (onItemCompleted e conv)).2)

/-- C6: starting from a conversation whose items field is an array, the
reset assignment runs exactly once per completed function_call item and only
then; a function_call item truncates the item array to empty, and an item of
any other type, in particular a plain assistant message, leaves any
conversation state unchanged. -/
theorem reset_once_per_function_call (events items : List ConvItem) :
    (runCompletedEvents events (.present (.arr items))).2 =
      (events.filter (fun e => e.type == "function_call")).length ∧
    (∀ (item : ConvItem) (l : List ConvItem), item.type = "function_call" →
      onItemCompleted item (.present (.arr l)) = .present (.arr [])) ∧
    (∀ (item : ConvItem) (conv : ConversationField),
      item.type ≠ "function_call" → onItemCompleted item conv = conv) := by
  refine ⟨?_, ?_, ?_⟩
  · induction events generalizing items with
    | nil => rfl
    | cons e es ih =>
      by_cases h : e.type = "function_call"
      · simp [runCompletedEvents, onItemCompleted, resetRuns, h, ih,
          List.filter_cons, Nat.add_comm]
      · simp [runCompletedEvents, onItemCompleted, resetRuns, h, ih,
          List.filter_cons]
  · intro item l h
    simp [onItemCompleted, h]
  · intro item conv h
    simp [onItemCompleted, h]

theorem reset_once_per_function_call_witness :
    (runCompletedEvents [⟨"function_call"⟩, ⟨"message"⟩]
        (.present (.arr [⟨"message"⟩]))).2 = 1 ∧
    onItemCompleted ⟨"message"⟩ (.present (.arr [⟨"message"⟩])) =
      .present (.arr [⟨"message"⟩]) := by
  have h := reset_once_per_function_call [⟨"function_call"⟩, ⟨"message"⟩]
    [⟨"message"⟩]
  exact ⟨h.1.trans (by decide), h.2.2 ⟨"message"⟩ _ (by decide)⟩

/-- C10: the listener leaves every malformed conversation shape unchanged
and raises no error (it is a total function): both when the conversation
field is absent and when its items field is not an array. -/
theorem reset_handler_safe_on_malformed (item : ConvItem) :
    onItemCompleted item .absent = .absent ∧
    onItemCompleted item (.present .notArr) = .present .notArr := by
  constructor <;> by_cases h : item.type = "function_call" <;>
    simp [onItemCompleted, h]

/-- State of the playback path of mood.mjs lines 320 to 355: the speaker
variable is either null or an open speaker instance, modelled by the list of
audio streams that have been piped into it since it was created. -/
structure PlaybackState where
  speaker : Option (List (List Nat))
deriving DecidableEq

/-- playAudio of mood.mjs lines 320 to 355: if the speaker variable is null,
create a fresh speaker; then pipe the audio stream into that speaker. There
is no queue and no rejection: a second call while the speaker is still open
pipes its stream into the same speaker instance. -/
def playAudio (audioData : List Nat) (s : PlaybackState) : PlaybackState :=
  match s.speaker with
  | none => { speaker := some [audioData] }
  | some written => { speaker := some (written ++ [audioData]) }

/-- The close listener registered in playAudio: when the speaker closes, the
speaker variable is set back to null. -/
def speakerClosed (_s : PlaybackState) : PlaybackState :=
  { speaker := none }

/-- C7 counterexample: a second playAudio call arriving before the speaker
has closed pipes its stream into the very speaker instance that is already
playing the first stream, so the second play is neither queued nor rejected
and both audio streams end up in the same output sink. -/
theorem playback_same_sink_counterexample :
    (playAudio [2] (playAudio [1] { speaker := none })).speaker =
      some [[1], [2]] ∧
    (playAudio [1] { speaker := none }).speaker = some [[1]] ∧
    some [[1], [2]] ≠ some [[1]] := by
  refine ⟨rfl, rfl, by decide⟩

/-- C7 amended: the playback path keeps at most one speaker instance; a
first play on a null speaker creates the instance and writes its stream, a
second play before the close event writes its stream into the same still
open instance (neither queued nor rejected), and only after the close
listener resets the variable does a play create a fresh instance holding
only its own stream. -/
theorem playback_shared_speaker (a1 a2 : List Nat) :
    (playAudio a1 { speaker := none }).speaker = some [a1] ∧
    (playAudio a2 (playAudio a1 { speaker := none })).speaker =
      some [a1, a2] ∧
    (playAudio a2 (speakerClosed (playAudio a1 { speaker := none }))).speaker =
      some [a2] :=
  ⟨rfl, rfl, rfl⟩

/-- Outcome of one client.connect() attempt. -/
inductive ConnectOutcome where
  | success
  | failure
deriving DecidableEq

/-- What a main function does after its connect attempt. -/
inductive MainAction where
  | startStream
  | logOnly
  | retryAfterMs (ms : Nat)
deriving DecidableEq

/-- main of advanced_mood.js lines 232 to 243 (and of the mood script in
mood.mjs lines 152 to 161): on success start the audio stream; on failure
log the error and stop, with no retry. -/
def advancedMoodMain : ConnectOutcome → MainAction
  | .success => .startStream
  | .failure => .logOnly

/-- main of the voice assistant script in mood.mjs lines 204 to 215: on
success start the audio stream; on failure log and schedule another main
call after 5000 ms. -/
def assistantMain : ConnectOutcome → MainAction
  | .success => .startStream
  | .failure => .retryAfterMs 5000

/-- The voice assistant main loop run against a sequence of connect
outcomes: each failure schedules the next attempt, a success starts the
stream and ends the loop. -/
def assistantRun : List ConnectOutcome → List MainAction
  | [] => []
  | o :: os =>
    match assistantMain o with
    | .retryAfterMs ms => .retryAfterMs ms :: assistantRun os
    | a => [a]

/-- C8 counterexample: in advanced_mood.js a failed connect is only logged;
main is not scheduled again, so there is no 5 second retry there. -/
theorem connect_no_retry_counterexample :
    advancedMoodMain .failure = .logOnly ∧
    MainAction.logOnly ≠ .retryAfterMs 5000 := by
  refine ⟨rfl, by decide⟩

/-- C8 amended: only the voice assistant script of mood.mjs retries a failed
connect, scheduling main again after a fixed 5000 ms delay, for every
failure however many have come before (no retry cap), and starts the audio
stream exactly once, after the first successful connect; advanced_mood.js
starts the stream only on success and on failure just logs, never retrying
and never starting the stream. -/
theorem connect_retry_policy (n : Nat) :
    assistantRun (List.replicate n .failure ++ [.success]) =
      List.replicate n (.retryAfterMs 5000) ++ [.startStream] ∧
    advancedMoodMain .success = .startStream ∧
    advancedMoodMain .failure = .logOnly := by
  refine ⟨?_, rfl, rfl⟩
  induction n with
  | zero => rfl
  | succ n ih =>
    simp only [List.replicate_succ, List.cons_append, assistantRun,
      assistantMain, List.append_eq]
    rw [ih]

/-- processAudioData of mood.mjs lines 297 to 317 (and the data listener of
advanced_mood.js lines 181 to 194) with the outcome of each send made
explicit: ok tells, for each frame, whether client.appendInputAudio succeeds
or throws; the frame is sliced off the buffer before the send, the catch
only logs, and the loop continues either way. Returns the frames attempted,
each with its send outcome, and the leftover buffer. -/
def sendLoop (ok : List Nat → Bool) (buffer : List Nat) :
    List (List Nat × Bool) × List Nat :=
  if _h : chunkSize ≤ buffer.length then
    ((buffer.take chunkSize, ok (buffer.take chunkSize)) ::
        (sendLoop ok (buffer.drop chunkSize)).1,
      (sendLoop ok (buffer.drop chunkSize)).2)
  else
    ([], buffer)
termination_by buffer.length
decreasing_by
  all_goals
    rw [List.length_drop]
    have hpos : 0 < chunkSize := by decide
    omega

/-- One data event of processAudioData: append the incoming bytes to the
global buffer, then run the send loop. -/
def processAudioData (ok : List Nat → Bool) (buffer data : List Nat) :
    List (List Nat × Bool) × List Nat :=
  sendLoop ok (buffer ++ data)

theorem sendLoop_pos {ok : List Nat → Bool} {buffer : List Nat}
    (h : chunkSize ≤ buffer.length) :
    sendLoop ok buffer =
      ((buffer.take chunkSize, ok (buffer.take chunkSize)) ::
          (sendLoop ok (buffer.drop chunkSize)).1,
        (sendLoop ok (buffer.drop chunkSize)).2) := by
  rw [sendLoop]
  simp [h]

theorem sendLoop_neg {ok : List Nat → Bool} {buffer : List Nat}
    (h : ¬ chunkSize ≤ buffer.length) :
    sendLoop ok buffer = ([], buffer) := by
  rw [sendLoop]
  simp [h]

theorem sendLoop_eq_emitFrames_aux (n : Nat) :
    ∀ (ok : List Nat → Bool) (buffer : List Nat), buffer.length ≤ n →
      (sendLoop ok buffer).1.map Prod.fst = (emitFrames buffer).1 ∧
      (sendLoop ok buffer).2 = (emitFrames buffer).2 := by
  induction n with
  | zero =>
    intro ok buffer hb
    have hlen : buffer.length = 0 := Nat.le_zero.mp hb
    have h : ¬ chunkSize ≤ buffer.length := by
      rw [hlen]; decide
    rw [sendLoop_neg h, emitFrames_neg h]
    simp
  | succ n ih =>
    intro ok buffer hb
    by_cases h : chunkSize ≤ buffer.length
    · have hdroplen : (buffer.drop chunkSize).length = buffer.length - chunkSize := by
        simp [List.length_drop]
      have hpos : 0 < chunkSize := by decide
      obtain ⟨ih1, ih2⟩ := ih ok (buffer.drop chunkSize) (by omega)
      rw [sendLoop_pos h, emitFrames_pos h]
      simp [ih1, ih2]
    · rw [sendLoop_neg h, emitFrames_neg h]
      simp

/-- C9: the frames attempted and the buffer left by processAudioData are
exactly those of the pure framing loop, whatever the send outcomes are: a
frame is sliced off the buffer before the send, so a frame whose send throws
is consumed all the same, never retried and never restored; the exception is
caught inside the loop, which continues through the remaining buffered
bytes, and the buffer state depends only on the bytes pushed so far. -/
theorem frames_consumed_regardless_of_send (ok : List Nat → Bool)
    (buffer data : List Nat) :
    (processAudioData ok buffer data).1.map Prod.fst =
      (emitFrames (buffer ++ data)).1 ∧
    (processAudioData ok buffer data).2 = (emitFrames (buffer ++ data)).2 ∧
    ((processAudioData ok buffer data).1.map Prod.fst).flatten ++
      (processAudioData ok buffer data).2 = buffer ++ data := by
  obtain ⟨h1, h2⟩ := sendLoop_eq_emitFrames_aux (buffer ++ data).length ok
    (buffer ++ data) (Nat.le_refl _)
  refine ⟨h1, h2, ?_⟩
  show ((sendLoop ok (buffer ++ data)).1.map Prod.fst).flatten ++
      (sendLoop ok (buffer ++ data)).2 = buffer ++ data
  rw [h1, h2]
  exact (emitFrames_spec (buffer ++ data)).1

end RealtimeExamples
